import Mathlib

/-!
Verification of the cube_chat streaming aggregation pipeline.

The definitions below are a shallow embedding of the repository's core
streaming logic:

* `mergeMeta`, `processMsg`, `processTrailing`, `runStream` embed
  `sendToCube` from `src/backend/src/cubeClient.ts` (the delta aggregator
  with the replay-cutoff gate), working at the level of decoded envelopes;
* `splitNl`, `frameStep`, `frame` embed the line framer of the same
  function (buffer + split on newline + keep incomplete line + flush);
* `onDelta`, `chatHandler` embed the downstream re-emitter and the
  `/api/chat` route of the backend server (`src/unnamed/part_001`),
  together with the message-store collaborators of `repo.ts`;
* `handleEvent` embeds the client segment reducer for `event` envelopes
  from `src/frontend/src/App.tsx` (`handleSend`).

JavaScript values carried by the untyped envelope fields are modelled by
`JsVal`, with `truthy` mirroring JavaScript truthiness and `jsBeq`
mirroring the `JSON.stringify`-based structural equality the client uses.
-/

/-- A JSON-like JavaScript value.  `null` also stands for `undefined`
where the two behave identically (both are falsy and both are skipped by
the merge conditions); where the code distinguishes presence from
absence, an `Option JsVal` is used instead. -/
inductive JsVal where
  | null
  | bool (b : Bool)
  | num (n : Int)
  | str (s : String)
  | arr (elems : List JsVal)
  | obj (fields : List (String × JsVal))

/-- JavaScript truthiness of a value (`if (v) ...`). -/
def truthy : JsVal → Bool
  | JsVal.null => false
  | JsVal.bool b => b
  | JsVal.num n => n != 0
  | JsVal.str s => s != ""
  | JsVal.arr _ => true
  | JsVal.obj _ => true

/-- Truthiness of a possibly-absent value (`undefined` is falsy). -/
def truthyOpt : Option JsVal → Bool
  | some v => truthy v
  | none => false

mutual

/-- Structural (deep) equality of values, the model of comparing
`JSON.stringify` outputs as `App.tsx` does. -/
def jsBeq : JsVal → JsVal → Bool
  | JsVal.null, JsVal.null => true
  | JsVal.bool a, JsVal.bool b => a == b
  | JsVal.num a, JsVal.num b => a == b
  | JsVal.str a, JsVal.str b => a == b
  | JsVal.arr a, JsVal.arr b => jsListBeq a b
  | JsVal.obj a, JsVal.obj b => jsFieldsBeq a b
  | _, _ => false

/-- Elementwise `jsBeq` on arrays. -/
def jsListBeq : List JsVal → List JsVal → Bool
  | [], [] => true
  | a :: ta, b :: tb => jsBeq a b && jsListBeq ta tb
  | _, _ => false

/-- Fieldwise `jsBeq` on objects (insertion order is significant, as it
is for `JSON.stringify`). -/
def jsFieldsBeq : List (String × JsVal) → List (String × JsVal) → Bool
  | [], [] => true
  | (k1, v1) :: ta, (k2, v2) :: tb => k1 == k2 && jsBeq v1 v2 && jsFieldsBeq ta tb
  | _, _ => false

end

/-- Property access `v[k]`; `none` models `undefined` (absent key or
non-object receiver, as under optional chaining). -/
def jsGetOpt : JsVal → String → Option JsVal
  | JsVal.obj fs, k => (fs.find? (fun p => p.1 == k)).map (fun p => p.2)
  | _, _ => none

/-- Chained property access `v[k1]?.[k2]`. -/
def jsGetOpt2 (v : JsVal) (k1 k2 : String) : Option JsVal :=
  match jsGetOpt v k1 with
  | some w => jsGetOpt w k2
  | none => none

mutual

/-- JavaScript `String(v)` conversion. -/
def jsToString : JsVal → String
  | JsVal.null => "null"
  | JsVal.bool b => cond b "true" "false"
  | JsVal.num n => toString n
  | JsVal.str s => s
  | JsVal.arr xs => jsToStringList xs
  | JsVal.obj _ => "[object Object]"

/-- `Array.prototype.toString`: elements joined with commas. -/
def jsToStringList : List JsVal → String
  | [] => ""
  | [x] => jsToStringElem x
  | x :: xs => jsToStringElem x ++ "," ++ jsToStringList xs

/-- One array element rendered inside a join (`null` renders empty). -/
def jsToStringElem : JsVal → String
  | JsVal.null => ""
  | v => jsToString v

end

/-! ## The aggregated metadata accumulator

A JavaScript object with string keys, modelled as an association list in
insertion order (keys are unique, as they are for JS objects). -/

/-- The aggregated-metadata object. -/
def Meta := List (String × JsVal)

/-- Assignment `m[k] = v` on a JS object: overwrite the existing entry in
place, or append a new entry at the end. -/
def setKey : Meta → String → JsVal → Meta
  | [], k, v => [(k, v)]
  | p :: t, k, v => if p.1 == k then (k, v) :: t else p :: setKey t k v

/-- Property read `m[k]`. -/
def getKey (m : Meta) (k : String) : Option JsVal :=
  (List.find? (fun p => p.1 == k) m).map (fun p => p.2)

/-- `Object.assign(out, fields)`: copy each field in order. -/
def assignObj (m : Meta) (fields : List (String × JsVal)) : Meta :=
  fields.foldl (fun acc p => setKey acc p.1 p.2) m

/-- The keys present in the accumulator. -/
def metaKeys (m : Meta) : List String := m.map (fun p => p.1)

/-! ## Upstream envelopes (`CubeDelta` in `cubeClient.ts`) -/

/-- One decoded upstream envelope.  `content` is `some c` exactly when
the JSON field is present and is a string (the only case the code looks
at, via `typeof msg.content === "string"`).  `stateIsStreaming` models
`msg.state?.isStreaming` as an optional boolean (`none` when `state` or
the flag is absent or not a boolean; only the literal `true` matters to
the code).  The remaining side-channel fields are untyped JS values with
`JsVal.null` for absent. -/
structure CubeDelta where
  id : Option String := none
  role : Option String := none
  content : Option String := none
  metadata : Option (List (String × JsVal)) := none
  thinking : Option String := none
  toolCall : JsVal := JsVal.null
  toolCallResult : JsVal := JsVal.null
  sqlToolCall : JsVal := JsVal.null
  sqlToolCallResult : JsVal := JsVal.null
  chartType : JsVal := JsVal.null
  visualization : JsVal := JsVal.null
  query : JsVal := JsVal.null
  stateIsStreaming : Option Bool := none

/-- Truthiness of the optional `thinking` string (`undefined` and the
empty string are falsy). -/
def thinkTruthy : Option String → Bool
  | none => false
  | some s => s != ""

/-- `mergeMeta(base, msg)` from `cubeClient.ts`: spread the base object,
`Object.assign` the envelope's `metadata`, then overwrite each truthy
side-channel field (including `thinking`, which is overwritten, not
appended). -/
def mergeMeta (base : Option Meta) (msg : CubeDelta) : Meta :=
  let out0 := base.getD []
  let out1 := match msg.metadata with
    | some fields => assignObj out0 fields
    | none => out0
  let out2 := if thinkTruthy msg.thinking then
      setKey out1 "thinking" (JsVal.str (msg.thinking.getD "")) else out1
  let out3 := if truthy msg.toolCall then
      setKey out2 "toolCall" msg.toolCall else out2
  let out4 := if truthy msg.toolCallResult then
      setKey out3 "toolCallResult" msg.toolCallResult else out3
  let out5 := if truthy msg.sqlToolCall then
      setKey out4 "sqlToolCall" msg.sqlToolCall else out4
  if truthy msg.sqlToolCallResult then
    setKey out5 "sqlToolCallResult" msg.sqlToolCallResult else out5

/-! ## Replay gate and delta aggregator (`sendToCube` main loop) -/

/-- The mutable state of one `sendToCube` call: the gate flag, the
accumulated assistant text, the metadata accumulator, and the ordered
record of `onDelta(chunk, raw)` callback invocations. -/
structure AggState where
  streamingStarted : Bool := false
  assistantText : String := ""
  lastMetadata : Option Meta := none
  deltas : List (String × CubeDelta) := []

/-- The initial aggregator state at the start of a turn. -/
def initAgg : AggState := {}

/-- The body of the per-line loop of `sendToCube` for one decoded
envelope: drop user-role envelopes, consume cutoff markers into the gate,
drop everything while the gate is closed, otherwise merge metadata,
invoke `onDelta("", msg)`, and for assistant string content also extend
the text and invoke `onDelta(msg.content, msg)`. -/
def processMsg (st : AggState) (msg : CubeDelta) : AggState :=
  if msg.role == some "user" then st
  else if msg.id == some "__cutoff__" then
    { st with streamingStarted := msg.stateIsStreaming == some true }
  else if st.streamingStarted then
    let st1 : AggState := { st with
      lastMetadata := some (mergeMeta st.lastMetadata msg),
      deltas := st.deltas ++ [("", msg)] }
    match msg.content with
    | some c =>
      if msg.role == some "assistant" then
        { st1 with
          assistantText := st1.assistantText ++ c,
          deltas := st1.deltas ++ [(c, msg)] }
      else st1
    | none => st1
  else st

/-- Processing a whole sequence of decoded complete lines. -/
def processList (st : AggState) (msgs : List CubeDelta) : AggState :=
  msgs.foldl processMsg st

/-- The trailing-buffer block of `sendToCube`, run on the final
unterminated line after the stream ends.  Unlike the main loop it does
not `continue` after the cutoff check, and it tests the gate and the
user role in a single condition. -/
def processTrailing (st : AggState) (msg : CubeDelta) : AggState :=
  let st0 := if msg.id == some "__cutoff__" then
      { st with streamingStarted := msg.stateIsStreaming == some true }
    else st
  if st0.streamingStarted && !(msg.role == some "user") then
    let st1 : AggState := { st0 with
      lastMetadata := some (mergeMeta st0.lastMetadata msg),
      deltas := st0.deltas ++ [("", msg)] }
    match msg.content with
    | some c =>
      if msg.role == some "assistant" then
        { st1 with
          assistantText := st1.assistantText ++ c,
          deltas := st1.deltas ++ [(c, msg)] }
      else st1
    | none => st1
  else st0

/-- One whole upstream stream: the decoded complete lines, then the
decoded trailing fragment if the final buffer was non-blank and parsed
(`none` covers a blank or unparsable trailing buffer). -/
def runStream (lines : List CubeDelta) (trailing : Option CubeDelta) : AggState :=
  let st := processList initAgg lines
  match trailing with
  | some msg => processTrailing st msg
  | none => st

/-! ## Line framer

The framer of `sendToCube` keeps a pending buffer, appends each chunk,
splits on the newline character, keeps the final split segment as the new
buffer, skips blank lines, and flushes a non-blank trailing buffer at
stream end.  Text is modelled as `List Char`. -/

/-- `text.split("\n")` for a single-character separator: always returns
at least one (possibly empty) piece. -/
def splitNl : List Char → List (List Char)
  | [] => [[]]
  | c :: cs =>
    match splitNl cs with
    | [] => [[]]
    | h :: t => if c = '\n' then [] :: h :: t else (c :: h) :: t

/-- A whitespace-only line (`!line.trim()` in the source). -/
def isBlank (l : List Char) : Bool := l.all Char.isWhitespace

/-- One read-loop iteration of the framer: append the chunk to the
buffer, split, emit all complete non-blank lines, keep the incomplete
last piece. -/
def frameStep (acc : List (List Char) × List Char) (chunk : List Char) :
    List (List Char) × List Char :=
  let parts := splitNl (acc.2 ++ chunk)
  (acc.1 ++ parts.dropLast.filter (fun l => !(isBlank l)), parts.getLastD [])

/-- The lines yielded by the framer for a whole chunk sequence, with the
end-of-stream flush of a non-blank trailing buffer. -/
def frame (chunks : List (List Char)) : List (List Char) :=
  let r := chunks.foldl frameStep ([], [])
  if isBlank r.2 then r.1 else r.1 ++ [r.2]

/-! ## Downstream re-emitter and `/api/chat` route (`src/unnamed/part_001`) -/

/-- A persisted message (`MessagePayload` in `types.ts`). -/
structure MessagePayload where
  role : String
  content : String
  timestamp : String
  metadata : Option Meta := none

/-- One downstream wire-protocol envelope. -/
inductive DownstreamMsg where
  | delta (content : String)
  | event (raw : CubeDelta)
  | done (conversationId : String) (messages : List MessagePayload)

/-- The re-emitter state owned by one `/api/chat` request: the
`assistantAccum` string and the ordered `res.write` output. -/
structure EmitState where
  assistantAccum : String := ""
  out : List DownstreamMsg := []

/-- JS `chunk.startsWith(pre)`, computed on the character data. -/
def strStartsWith (s pre : String) : Bool := pre.data.isPrefixOf s.data

/-- JS `s.slice(n)`, computed on the character data. -/
def strDrop (s : String) (n : Nat) : String := String.mk (s.data.drop n)

/-- JS `s.length`. -/
def strLen (s : String) : Nat := s.data.length

/-- The `event`-worthiness test of the route's `onDelta` callback: the
raw envelope carries at least one side-channel field. -/
def hasEventFields (r : CubeDelta) : Bool :=
  thinkTruthy r.thinking || truthy r.toolCall || truthy r.toolCallResult ||
    truthy r.sqlToolCall || truthy r.sqlToolCallResult || truthy r.chartType ||
    truthy r.visualization || truthy r.query

/-- The `onDelta` callback installed by the `/api/chat` route: strip the
already-accumulated text from the front of the chunk when the chunk
repeats it, write a `delta` envelope for a non-empty result, and write an
`event` envelope when the raw envelope has side-channel fields. -/
def onDelta (st : EmitState) (chunk : String) (raw : Option CubeDelta) : EmitState :=
  let delta := if strStartsWith chunk st.assistantAccum then
      strDrop chunk (strLen st.assistantAccum) else chunk
  let st1 := if delta != "" then
      { st with
        assistantAccum := st.assistantAccum ++ delta,
        out := st.out ++ [DownstreamMsg.delta delta] }
    else st
  match raw with
  | some r =>
    if hasEventFields r then { st1 with out := st1.out ++ [DownstreamMsg.event r] }
    else st1
  | none => st1

/-- The contents of the `delta` envelopes among the downstream writes. -/
def deltasOf (msgs : List DownstreamMsg) : List String :=
  msgs.filterMap (fun m => match m with
    | DownstreamMsg.delta c => some c
    | _ => none)

/-- The observable outcome of one `/api/chat` request: the downstream
writes, the conversation's message store afterwards, and the result
(`error` models the thrown exception reaching the error middleware). -/
structure ChatOutcome where
  writes : List DownstreamMsg
  store : List MessagePayload
  result : Except String Unit

/-- `sendToCube` up to its aggregation result: a non-success upstream
response or a missing body (`resOkAndBody = false`) throws
`Cube API HTTP <status>` before any line is read; otherwise the stream is
aggregated.  The `onDelta` invocations are recorded in `deltas` of the
returned state, in call order. -/
def sendToCubeModel (resOkAndBody : Bool) (status : Nat) (lines : List CubeDelta)
    (trailing : Option CubeDelta) : Except String AggState :=
  if resOkAndBody then Except.ok (runStream lines trailing)
  else Except.error ("Cube API HTTP " ++ toString status)

/-- The `/api/chat` route handler for one conversation: reject empty
content, persist the user message, call upstream, replay the recorded
`onDelta` invocations through the re-emitter (the calls happen during
`sendToCube` in the source; folding the recorded call list afterwards is
the same computation), persist the assistant message (empty text becomes
"No response"), reload the message list and write the final `done`
envelope.  An upstream failure propagates as a single error with no
downstream writes and no assistant message. -/
def chatHandler (store : List MessagePayload) (convoId content tsUser tsAssistant : String)
    (resOkAndBody : Bool) (status : Nat) (lines : List CubeDelta)
    (trailing : Option CubeDelta) : ChatOutcome :=
  if content = "" then
    { writes := [], store := store, result := Except.error "content required" }
  else
    let store1 := store ++ [{ role := "user", content := content, timestamp := tsUser }]
    match sendToCubeModel resOkAndBody status lines trailing with
    | Except.error e => { writes := [], store := store1, result := Except.error e }
    | Except.ok agg =>
      let emit := agg.deltas.foldl (fun s c => onDelta s c.1 (some c.2)) {}
      let message := if agg.assistantText = "" then "No response" else agg.assistantText
      let assistantMsg : MessagePayload :=
        { role := "assistant", content := message, timestamp := tsAssistant,
          metadata := agg.lastMetadata }
      let store2 := store1 ++ [assistantMsg]
      { writes := emit.out ++ [DownstreamMsg.done convoId store2],
        store := store2, result := Except.ok () }

/-! ## Client segment reducer (`App.tsx`, `handleSend`)

The per-assistant-message state the reducer maintains and the handling of
one `event` downstream envelope.  Thinking text is kept as `List Char` so
that the paragraph split on newline runs can be stated directly. -/

/-- A typed segment of the rendered timeline; the value of a `toolCall`
segment is the pair built in the source (`result` may be absent). -/
inductive Segment where
  | thinking (value : List Char)
  | text (value : String)
  | toolCall (call : JsVal) (result : Option JsVal)

/-- Segment equality as the source compares segments: same constructor
and `JSON.stringify`-equal values. -/
def segBeq : Segment → Segment → Bool
  | Segment.thinking a, Segment.thinking b => a == b
  | Segment.text a, Segment.text b => a == b
  | Segment.toolCall c1 r1, Segment.toolCall c2 r2 =>
    jsBeq c1 c2 &&
      (match r1, r2 with
       | some a, some b => jsBeq a b
       | none, none => true
       | _, _ => false)
  | _, _ => false

/-- `pushSeg`: append a segment unless it structurally equals the
immediately preceding one. -/
def pushSeg (segs : List Segment) (seg : Segment) : List Segment :=
  match segs.getLast? with
  | some prevSeg => if segBeq prevSeg seg then segs else segs ++ [seg]
  | none => segs ++ [seg]

/-- `dedupPush`: ignore `undefined`/`null`, otherwise append unless the
value structurally equals the (truthy) last element. -/
def dedupPush (arr : List JsVal) (val : Option JsVal) : List JsVal :=
  match val with
  | none => arr
  | some JsVal.null => arr
  | some v =>
    match arr.getLast? with
    | some lastVal => if truthy lastVal && jsBeq lastVal v then arr else arr ++ [v]
    | none => arr ++ [v]

/-- The per-message metadata object the reducer maintains. -/
structure MsgMeta where
  chartType : JsVal := JsVal.null
  visualization : Option JsVal := none
  query : Option JsVal := none
  thinking : Option (List Char) := none
  events : List JsVal := []

/-- The reducer state for one in-flight assistant message. -/
structure ChatMsgState where
  content : String := ""
  assistantChunks : List String := []
  segments : List Segment := []
  thinkingSteps : List (List Char) := []
  thinkingBuffer : List Char := []
  toolCalls : List JsVal := []
  toolResults : List JsVal := []
  sqlToolCalls : List JsVal := []
  sqlToolResults : List JsVal := []
  metadata : MsgMeta := {}

/-- Prepend a character to the first piece of a split result. -/
def consHead (c : Char) : List (List Char) → List (List Char)
  | [] => [[c]]
  | h :: t => (c :: h) :: t

mutual

/-- `buffer.split(/\n+/)`: split on maximal runs of newlines. -/
def splitRuns : List Char → List (List Char)
  | [] => [[]]
  | c :: cs =>
    if c = '\n' then [] :: splitRunsSep cs
    else consHead c (splitRuns cs)

/-- Continuation of `splitRuns` immediately after a newline: further
newlines extend the same separator run. -/
def splitRunsSep : List Char → List (List Char)
  | [] => [[]]
  | c :: cs =>
    if c = '\n' then splitRunsSep cs
    else consHead c (splitRuns cs)

end

/-- `[...thinkingSteps, thinkingBuffer].join("\n")`. -/
def joinNl : List (List Char) → List Char
  | [] => []
  | [x] => x
  | x :: xs => x ++ '\n' :: joinNl xs

/-- The strict comparison `v === false` on a possibly-absent value. -/
def isFalseVal : Option JsVal → Bool
  | some (JsVal.bool false) => true
  | _ => false

/-- The result of the thinking-fragment block of the event handler. -/
structure ThinkOut where
  steps : List (List Char)
  buffer : List Char
  segs : List Segment
  metaThinking : Option (List Char)

/-- The thinking-fragment block: append the fragment to the pending
buffer, split on newline runs, keep the last piece as the new buffer,
turn every non-blank completed piece into a `thinking` segment, flush the
remaining buffer when the envelope carries `isInProcess === false`, and
record the joined thinking text on the metadata object. -/
def processThinking (st : ChatMsgState) (raw : JsVal) (segs : List Segment) : ThinkOut :=
  match jsGetOpt raw "thinking" with
  | some tv =>
    if truthy tv then
      let buf := st.thinkingBuffer ++ (jsToString tv).data
      let parts := splitRuns buf
      let buffer0 := parts.getLastD []
      let folded := parts.dropLast.foldl
        (fun acc part =>
          if isBlank part then acc
          else (acc.1 ++ [part], pushSeg acc.2 (Segment.thinking part)))
        (st.thinkingSteps, segs)
      let flushed :=
        if isFalseVal (jsGetOpt raw "isInProcess") && !(isBlank buffer0) then
          (folded.1 ++ [buffer0], pushSeg folded.2 (Segment.thinking buffer0), ([] : List Char))
        else (folded.1, folded.2, buffer0)
      { steps := flushed.1, buffer := flushed.2.2, segs := flushed.2.1,
        metaThinking := some (joinNl (flushed.1 ++ [flushed.2.2])) }
    else
      { steps := st.thinkingSteps, buffer := st.thinkingBuffer, segs := segs,
        metaThinking := st.metadata.thinking }
  | none =>
    { steps := st.thinkingSteps, buffer := st.thinkingBuffer, segs := segs,
      metaThinking := st.metadata.thinking }

/-- The body of the `event` branch after the de-duplication check:
thinking handling, the three `dedupPush`ed tool-channel arrays, the
`toolCall` segment, the chart/visualization/query metadata overwrites,
and the unconditional append of the raw envelope to `meta.events`. -/
def handleEventCore (st : ChatMsgState) (raw : JsVal) : ChatMsgState :=
  let think := processThinking st raw st.segments
  let toolCallOpt := jsGetOpt raw "toolCall"
  let tcResult := jsGetOpt2 raw "toolCall" "result"
  let tcInput := jsGetOpt2 raw "toolCall" "input"
  let toolCalls1 := dedupPush st.toolCalls toolCallOpt
  let toolResults1 := if truthyOpt tcResult then dedupPush st.toolResults tcResult
    else st.toolResults
  let sqlToolCalls1 := if truthyOpt tcInput then dedupPush st.sqlToolCalls tcInput
    else st.sqlToolCalls
  let sqlToolResults1 := if truthyOpt tcResult then dedupPush st.sqlToolResults tcResult
    else st.sqlToolResults
  let segments2 := if truthyOpt toolCallOpt then
      pushSeg think.segs (Segment.toolCall (toolCallOpt.getD JsVal.null) tcResult)
    else think.segs
  let chartType1 := if truthyOpt (jsGetOpt raw "chartType") then
      (jsGetOpt raw "chartType").getD JsVal.null else st.metadata.chartType
  let visualization1 := match jsGetOpt raw "visualization" with
    | some v => some v
    | none => st.metadata.visualization
  let query1 := match jsGetOpt raw "query" with
    | some v => some v
    | none => st.metadata.query
  { st with
    metadata := { chartType := chartType1, visualization := visualization1,
                  query := query1, thinking := think.metaThinking,
                  events := st.metadata.events ++ [raw] },
    thinkingSteps := think.steps,
    thinkingBuffer := think.buffer,
    toolCalls := toolCalls1,
    toolResults := toolResults1,
    sqlToolCalls := sqlToolCalls1,
    sqlToolResults := sqlToolResults1,
    segments := segments2 }

/-- The `event` branch of the reducer: ignore the envelope entirely when
it is structurally identical to the immediately preceding raw envelope
recorded for this message, otherwise run the body. -/
def handleEvent (st : ChatMsgState) (raw : JsVal) : ChatMsgState :=
  let lastEvent := st.metadata.events.getLastD JsVal.null
  if truthy lastEvent && jsBeq lastEvent raw then st
  else handleEventCore st raw

/-- The `delta` branch of the reducer: record the fragment as a chunk, a
`text` segment, and rebuild the rendered content by joining all chunks. -/
def handleDelta (st : ChatMsgState) (content : String) : ChatMsgState :=
  let chunks := st.assistantChunks ++ [content]
  { st with
    content := String.join chunks,
    assistantChunks := chunks,
    segments := st.segments ++ [Segment.text content] }

/-! ## Basic lemmas about the metadata accumulator -/

/-- Setting a key preserves every key already present. -/
theorem mem_metaKeys_setKey (m : Meta) (k2 : String) (v : JsVal) (k : String)
    (h : k ∈ metaKeys m) : k ∈ metaKeys (setKey m k2 v) := by
  induction m with
  | nil => simp [metaKeys] at h
  | cons p t ih =>
    by_cases hp : (p.1 == k2) = true
    · have hpk : p.1 = k2 := eq_of_beq hp
      simp [setKey, hp, metaKeys] at h ⊢
      rcases h with h | h
      · left; rw [h, hpk]
      · right; exact h
    · simp only [Bool.not_eq_true] at hp
      simp [setKey, hp, metaKeys] at h ⊢
      rcases h with h | h
      · left; exact h
      · right
        have := ih (by simpa [metaKeys] using h)
        simpa [metaKeys] using this

/-- `Object.assign` preserves every key already present. -/
theorem mem_metaKeys_assignObj (fields : List (String × JsVal)) (m : Meta) (k : String)
    (h : k ∈ metaKeys m) : k ∈ metaKeys (assignObj m fields) := by
  induction fields generalizing m with
  | nil => simpa [assignObj] using h
  | cons p t ih =>
    have : assignObj m (p :: t) = assignObj (setKey m p.1 p.2) t := rfl
    rw [this]
    exact ih _ (mem_metaKeys_setKey m p.1 p.2 k h)

/-- A conditional key-set preserves every key already present. -/
theorem mem_metaKeys_ite (c : Prop) [Decidable c] (m : Meta) (k2 : String) (v : JsVal)
    (k : String) (h : k ∈ metaKeys m) :
    k ∈ metaKeys (if c then setKey m k2 v else m) := by
  by_cases hc : c
  · simpa [hc] using mem_metaKeys_setKey m k2 v k h
  · simpa [hc] using h

/-- C9: within one turn, a merge never deletes a key of the accumulator:
every key present in the base accumulator before `mergeMeta` is still
present (possibly overwritten) afterwards, for every envelope. -/
theorem mergeMeta_never_deletes (base : Meta) (msg : CubeDelta) (k : String)
    (h : k ∈ metaKeys base) : k ∈ metaKeys (mergeMeta (some base) msg) := by
  simp only [mergeMeta]
  apply mem_metaKeys_ite
  apply mem_metaKeys_ite
  apply mem_metaKeys_ite
  apply mem_metaKeys_ite
  apply mem_metaKeys_ite
  cases hm : msg.metadata with
  | none => simpa using h
  | some fields => simpa using mem_metaKeys_assignObj fields base k h

/-- C9 witness: concrete instance of the never-delete invariant. -/
theorem mergeMeta_never_deletes_witness :
    "toolCall" ∈ metaKeys (mergeMeta (some [("toolCall", JsVal.str "old")])
      { thinking := some "t", sqlToolCall := JsVal.str "q" }) :=
  mergeMeta_never_deletes [("toolCall", JsVal.str "old")]
    { thinking := some "t", sqlToolCall := JsVal.str "q" } "toolCall" (by decide)

/-- C10: falsy side-channel values are treated as absent: when the
envelope's `metadata` is null/absent, its `thinking` is falsy (absent or
the empty string), and its `toolCall`, `toolCallResult`, `sqlToolCall`
and `sqlToolCallResult` are falsy (null, false, 0, or the empty string),
the merge leaves the accumulator unchanged, even though the envelope may
explicitly carry those fields. -/
theorem mergeMeta_falsy_ignored (base : Meta) (msg : CubeDelta)
    (h1 : msg.metadata = none) (h2 : thinkTruthy msg.thinking = false)
    (h3 : truthy msg.toolCall = false) (h4 : truthy msg.toolCallResult = false)
    (h5 : truthy msg.sqlToolCall = false) (h6 : truthy msg.sqlToolCallResult = false) :
    mergeMeta (some base) msg = base := by
  simp [mergeMeta, h1, h2, h3, h4, h5, h6]

/-- C10 witness: an envelope explicitly carrying an empty `thinking`, a
null `toolCall`, a false `toolCallResult`, a zero `sqlToolCall` and an
empty-string `sqlToolCallResult` merges to the unchanged accumulator. -/
theorem mergeMeta_falsy_ignored_witness :
    mergeMeta (some [("thinking", JsVal.str "old"), ("toolCall", JsVal.str "oldCall")])
      { thinking := some "", toolCall := JsVal.null,
        toolCallResult := JsVal.bool false, sqlToolCall := JsVal.num 0,
        sqlToolCallResult := JsVal.str "" }
      = [("thinking", JsVal.str "old"), ("toolCall", JsVal.str "oldCall")] :=
  mergeMeta_falsy_ignored _ _ rfl (by decide) rfl (by decide) (by decide) (by decide)

/-! ## Lemmas about the replay gate -/

/-- Reading back the key just set. -/
theorem getKey_setKey (m : Meta) (k : String) (v : JsVal) :
    getKey (setKey m k v) k = some v := by
  induction m with
  | nil => simp [setKey, getKey, List.find?]
  | cons p t ih =>
    by_cases hp : (p.1 == k) = true
    · simp [setKey, hp, getKey, List.find?]
    · simp only [Bool.not_eq_true] at hp
      simpa [setKey, hp, getKey, List.find?] using ih

/-- While the gate is closed, any envelope that is not a cutoff marker
leaves the aggregator state untouched. -/
theorem processMsg_closed_gate (st : AggState) (e : CubeDelta)
    (hs : st.streamingStarted = false) (he : e.id ≠ some "__cutoff__") :
    processMsg st e = st := by
  have hid : (e.id == some "__cutoff__") = false := beq_eq_false_iff_ne.mpr he
  cases hr : (e.role == some "user") <;> simp [processMsg, hr, hid, hs]

/-- In the main loop a cutoff marker (with a non-user role) only moves
the gate; it is neither merged nor forwarded. -/
theorem processMsg_cutoff (st : AggState) (c : CubeDelta)
    (hc : c.id = some "__cutoff__") (hrole : c.role ≠ some "user") :
    processMsg st c = { st with streamingStarted := c.stateIsStreaming == some true } := by
  have hr : (c.role == some "user") = false := beq_eq_false_iff_ne.mpr hrole
  have hid : (c.id == some "__cutoff__") = true := by simp [hc]
  simp [processMsg, hr, hid]

/-- A cutoff marker carrying a live streaming state. -/
def ctTrue : CubeDelta := { id := some "__cutoff__", stateIsStreaming := some true }

/-- A cutoff marker without a live streaming state. -/
def ctFalse : CubeDelta := { id := some "__cutoff__", stateIsStreaming := some false }

/-- An envelope carrying only a thinking fragment. -/
def envThinking (s : String) : CubeDelta := { thinking := some s }

/-- An envelope carrying only a tool call. -/
def envToolCall (v : JsVal) : CubeDelta := { toolCall := v }

/-- C1 counterexample: after a cutoff, merging the gated envelopes with
thinking "foo" then thinking "bar" leaves the aggregated thinking equal
to "bar" alone — which does not contain "foo" — refuting the claim that
the fragments are concatenated. -/
theorem merge_thinking_replaced_cex :
    (processList initAgg [ctTrue, envThinking "foo", envThinking "bar"]).lastMetadata
      = some [("thinking", JsVal.str "bar")] ∧
    ¬ List.IsInfix "foo".data "bar".data := by
  exact ⟨rfl, by decide⟩

/-- C1 (amended): after the cutoff, for gated envelopes carrying
`toolCall` X then `toolCall` Y (Y truthy) the final aggregated
`toolCall` is Y (last-seen wins); for gated envelopes carrying thinking
fragments a then b (b non-empty) the final aggregated `thinking` is
exactly the last fragment b — overwritten, not concatenated. -/
theorem merge_precedence_amended (X Y : JsVal) (a b : String)
    (hY : truthy Y = true) (hb : b ≠ "") :
    getKey (((processList initAgg [ctTrue, envToolCall X, envToolCall Y]).lastMetadata).getD [])
      "toolCall" = some Y ∧
    getKey (((processList initAgg [ctTrue, envThinking a, envThinking b]).lastMetadata).getD [])
      "thinking" = some (JsVal.str b) := by
  constructor
  · have run : (processList initAgg [ctTrue, envToolCall X, envToolCall Y]).lastMetadata
        = some (mergeMeta (some (mergeMeta none (envToolCall X))) (envToolCall Y)) := rfl
    rw [run]
    have e1 : mergeMeta none (envToolCall X)
        = if truthy X then [("toolCall", X)] else [] := by
      by_cases hX : truthy X = true <;>
        simp [mergeMeta, envToolCall, setKey, hX,
          show thinkTruthy none = false from rfl, show truthy JsVal.null = false from rfl]
    rw [Option.getD_some, e1]
    by_cases hX : truthy X = true
    · rw [if_pos hX]
      have e2 : mergeMeta (some [("toolCall", X)]) (envToolCall Y)
          = setKey [("toolCall", X)] "toolCall" Y := by
        simp [mergeMeta, envToolCall, hY,
          show thinkTruthy none = false from rfl, show truthy JsVal.null = false from rfl]
      rw [e2, getKey_setKey]
    · rw [if_neg hX]
      have e2 : mergeMeta (some []) (envToolCall Y) = setKey [] "toolCall" Y := by
        simp [mergeMeta, envToolCall, hY,
          show thinkTruthy none = false from rfl, show truthy JsVal.null = false from rfl]
      rw [e2, getKey_setKey]
  · have hbt : thinkTruthy (some b) = true := by
      simp [thinkTruthy, hb]
    have run : (processList initAgg [ctTrue, envThinking a, envThinking b]).lastMetadata
        = some (mergeMeta (some (mergeMeta none (envThinking a))) (envThinking b)) := rfl
    rw [run]
    have e1 : mergeMeta none (envThinking a)
        = if thinkTruthy (some a) then [("thinking", JsVal.str a)] else [] := by
      by_cases ha : thinkTruthy (some a) = true <;>
        simp [mergeMeta, envThinking, setKey, ha, show truthy JsVal.null = false from rfl]
    rw [Option.getD_some, e1]
    by_cases ha : thinkTruthy (some a) = true
    · rw [if_pos ha]
      have e2 : mergeMeta (some [("thinking", JsVal.str a)]) (envThinking b)
          = setKey [("thinking", JsVal.str a)] "thinking" (JsVal.str b) := by
        simp [mergeMeta, envThinking, hbt, show truthy JsVal.null = false from rfl]
      rw [e2, getKey_setKey]
    · rw [if_neg ha]
      have e2 : mergeMeta (some []) (envThinking b) = setKey [] "thinking" (JsVal.str b) := by
        simp [mergeMeta, envThinking, hbt, show truthy JsVal.null = false from rfl]
      rw [e2, getKey_setKey]

/-- C1 witness: concrete instance of the amended merge precedence. -/
theorem merge_precedence_amended_witness :
    getKey (((processList initAgg
        [ctTrue, envToolCall (JsVal.str "X"), envToolCall (JsVal.str "Y")]).lastMetadata).getD [])
      "toolCall" = some (JsVal.str "Y") ∧
    getKey (((processList initAgg
        [ctTrue, envThinking "foo", envThinking "bar"]).lastMetadata).getD [])
      "thinking" = some (JsVal.str "bar") :=
  merge_precedence_amended (JsVal.str "X") (JsVal.str "Y") "foo" "bar" (by decide) (by decide)

/-- C2: replay-cutoff gating: for every envelope sequence, everything
before the first cutoff marker contributes nothing to the aggregation
(neither to the assistant text nor to the metadata nor to the forwarded
deltas), and processing continues on the rest of the sequence with the
gate set exactly when the cutoff's `state.isStreaming` is literally
`true` (so a cutoff with `isStreaming` false or absent leaves the gate
suppressing). -/
theorem replay_cutoff_gating (pre rest : List CubeDelta) (c : CubeDelta)
    (hpre : ∀ e ∈ pre, e.id ≠ some "__cutoff__")
    (hc : c.id = some "__cutoff__") (hrole : c.role ≠ some "user") :
    processList initAgg (pre ++ c :: rest)
      = processList { initAgg with streamingStarted := c.stateIsStreaming == some true } rest := by
  have hfold : ∀ (l : List CubeDelta), (∀ e ∈ l, e.id ≠ some "__cutoff__") →
      processList initAgg l = initAgg := by
    intro l
    induction l with
    | nil => intro _; rfl
    | cons e t ih =>
      intro h
      have h1 : processMsg initAgg e = initAgg :=
        processMsg_closed_gate initAgg e rfl (h e (List.mem_cons_self e t))
      calc processList initAgg (e :: t)
          = processList (processMsg initAgg e) t := rfl
        _ = processList initAgg t := by rw [h1]
        _ = initAgg := ih (fun x hx => h x (List.mem_cons_of_mem e hx))
  have key : processList initAgg (pre ++ c :: rest)
      = processList (processMsg (processList initAgg pre) c) rest := by
    simp [processList, List.foldl_append, List.foldl]
  rw [key, hfold pre hpre, processMsg_cutoff initAgg c hc hrole]

/-- An assistant envelope carrying the fragment "A". -/
def envA : CubeDelta := { role := some "assistant", content := some "A" }

/-- An envelope carrying a thinking fragment "b". -/
def envB : CubeDelta := { thinking := some "b" }

/-- An assistant envelope carrying the fragment "C". -/
def envC : CubeDelta := { role := some "assistant", content := some "C" }

/-- An envelope carrying a tool call "D". -/
def envD : CubeDelta := { toolCall := JsVal.str "D" }

/-- C2 witness: for [A, B, cutoff(isStreaming=true), C, D] the
aggregation equals the aggregation of [C, D] alone from the open gate. -/
theorem replay_cutoff_gating_witness :
    processList initAgg [envA, envB, ctTrue, envC, envD]
      = processList { initAgg with streamingStarted := true } [envC, envD] :=
  replay_cutoff_gating [envA, envB] [envC, envD] ctTrue (by decide) rfl (by decide)

/-- A trailing cutoff marker with a live streaming state that also
carries a thinking fragment. -/
def ctTrueThinkX : CubeDelta :=
  { id := some "__cutoff__", stateIsStreaming := some true, thinking := some "x" }

/-- C4 counterexample: when the cutoff envelope arrives as the trailing
unterminated line and carries `state.isStreaming = true`, the trailing
block merges the cutoff envelope itself into the aggregated metadata and
forwards it through `onDelta` — refuting the claim that a cutoff is
never merged nor forwarded. -/
theorem trailing_cutoff_forwarded_cex :
    (runStream [] (some ctTrueThinkX)).deltas = [("", ctTrueThinkX)] ∧
    (runStream [] (some ctTrueThinkX)).lastMetadata = some [("thinking", JsVal.str "x")] :=
  ⟨rfl, rfl⟩

/-- C4 (amended): in the per-chunk main loop a cutoff envelope (with a
non-user role) only moves the gate and is never merged nor forwarded;
in the trailing-line flush a cutoff whose `state.isStreaming` is not
literally `true` is likewise consumed silently (only closing the gate),
but a trailing cutoff with `state.isStreaming = true` is itself merged
and forwarded, as the counterexample shows. -/
theorem cutoff_consumed_amended (st : AggState) (msg : CubeDelta)
    (h1 : msg.id = some "__cutoff__") (h2 : msg.role ≠ some "user") :
    processMsg st msg = { st with streamingStarted := msg.stateIsStreaming == some true } ∧
    (msg.stateIsStreaming ≠ some true →
      processTrailing st msg = { st with streamingStarted := false }) := by
  constructor
  · exact processMsg_cutoff st msg h1 h2
  · intro hs
    have hb : (msg.stateIsStreaming == some true) = false := beq_eq_false_iff_ne.mpr hs
    have hid : (msg.id == some "__cutoff__") = true := by simp [h1]
    simp [processTrailing, hid, hb]

/-- C4 witness: a cutoff with `isStreaming = false` is consumed silently
both in the main loop and as the trailing line. -/
theorem cutoff_consumed_amended_witness :
    processMsg initAgg ctFalse = { initAgg with streamingStarted := false } ∧
    processTrailing initAgg ctFalse = { initAgg with streamingStarted := false } := by
  have h := cutoff_consumed_amended initAgg ctFalse rfl (by decide)
  exact ⟨h.1, h.2 (by decide)⟩

/-- The user envelope of the example scenario. -/
def envUserHi : CubeDelta := { role := some "user", content := some "hi" }

/-- The first assistant envelope of the example scenario. -/
def envSales : CubeDelta := { role := some "assistant", content := some "Sales " }

/-- The second assistant envelope of the example scenario. -/
def envAreUp : CubeDelta := { role := some "assistant", content := some "are up." }

/-- C3: end-to-end example scenario: for the upstream envelopes decoded
from the lines user "hi", cutoff(isStreaming=true), assistant "Sales ",
assistant "are up.", the downstream stream is exactly two delta
envelopes "Sales " and "are up." followed by one done envelope whose
assistant message content is "Sales are up.". -/
theorem example_scenario :
    chatHandler [] "c1" "hi" "t0" "t1" true 200 [envUserHi, ctTrue, envSales, envAreUp] none
      = { writes := [DownstreamMsg.delta "Sales ", DownstreamMsg.delta "are up.",
            DownstreamMsg.done "c1"
              [{ role := "user", content := "hi", timestamp := "t0" },
               { role := "assistant", content := "Sales are up.", timestamp := "t1",
                 metadata := some [] }]],
          store := [{ role := "user", content := "hi", timestamp := "t0" },
                    { role := "assistant", content := "Sales are up.", timestamp := "t1",
                      metadata := some [] }],
          result := Except.ok () } := rfl

/-- An assistant envelope carrying the fragment "ab". -/
def envAb : CubeDelta := { role := some "assistant", content := some "ab" }

/-- An assistant envelope carrying the fragment "abc". -/
def envAbc : CubeDelta := { role := some "assistant", content := some "abc" }

/-- C6 counterexample: for the accepted assistant fragments "ab" then
"abc", the re-emitter writes delta contents ["ab", "c"]: the second
accepted fragment "abc" is never emitted as a delta content, refuting
the claim that every delta content equals exactly its fragment. -/
theorem delta_exactness_cex :
    deltasOf (chatHandler [] "c1" "q" "t0" "t1" true 200 [ctTrue, envAb, envAbc] none).writes
      = ["ab", "c"] ∧
    "abc" ∉ deltasOf (chatHandler [] "c1" "q" "t0" "t1" true 200
      [ctTrue, envAb, envAbc] none).writes := by
  have e : deltasOf (chatHandler [] "c1" "q" "t0" "t1" true 200
      [ctTrue, envAb, envAbc] none).writes = ["ab", "c"] := rfl
  exact ⟨e, by rw [e]; decide⟩

/-- `deltasOf` distributes over list append. -/
theorem deltasOf_append (a b : List DownstreamMsg) :
    deltasOf (a ++ b) = deltasOf a ++ deltasOf b := by
  simp [deltasOf, List.filterMap_append]

/-- C6 (amended): the `delta` content written by the re-emitter for an
accepted fragment is the fragment itself when the fragment is non-empty
and does not start with the already-accumulated assistant text; a
fragment of the form accumulated-text ++ extension (non-empty extension)
is written with content equal to the extension only — never the full
accumulated text; an empty resulting content is suppressed. -/
theorem delta_reemit_amended (st : EmitState) (raw : Option CubeDelta) :
    (∀ chunk : String, strStartsWith chunk st.assistantAccum = false → chunk ≠ "" →
        deltasOf (onDelta st chunk raw).out = deltasOf st.out ++ [chunk]) ∧
    (∀ ext : String, ext ≠ "" →
        deltasOf (onDelta st (st.assistantAccum ++ ext) raw).out
          = deltasOf st.out ++ [ext]) := by
  constructor
  · intro chunk h1 h2
    have hne : (chunk != "") = true := by simpa using h2
    unfold onDelta
    rw [h1]
    simp only [Bool.false_eq_true, if_false, hne, if_true]
    cases raw with
    | none => simp [deltasOf_append, deltasOf]
    | some r =>
      by_cases hr : hasEventFields r = true <;>
        simp [hr, deltasOf_append, deltasOf]
  · intro ext hext
    have hpre : strStartsWith (st.assistantAccum ++ ext) st.assistantAccum = true := by
      simp [strStartsWith, String.data_append]
    have hdrop : strDrop (st.assistantAccum ++ ext) (strLen st.assistantAccum) = ext := by
      simp [strDrop, strLen, String.data_append, List.drop_left]
    have hne : (ext != "") = true := by simpa using hext
    unfold onDelta
    rw [hpre, if_pos rfl, hdrop]
    simp only [hne, if_true]
    cases raw with
    | none => simp [deltasOf_append, deltasOf]
    | some r =>
      by_cases hr : hasEventFields r = true <;>
        simp [hr, deltasOf_append, deltasOf]

/-- C6 witness: a non-empty fragment that does not start with the
accumulated text is re-emitted exactly. -/
theorem delta_reemit_amended_witness :
    deltasOf (onDelta { assistantAccum := "ab", out := [] } "xy" none).out
      = deltasOf [] ++ ["xy"] :=
  (delta_reemit_amended { assistantAccum := "ab", out := [] } none).1 "xy"
    (by decide) (by decide)

/-- C8 counterexample: on an upstream HTTP 500 the handler writes no
downstream envelope and propagates a single error, but the user message
of the turn has already been persisted — the store is not left empty —
refuting the claim that no message is persisted for the turn. -/
theorem upstream_failure_cex :
    (chatHandler [] "c1" "hi" "t0" "t1" false 500 [] none).writes = [] ∧
    (chatHandler [] "c1" "hi" "t0" "t1" false 500 [] none).result
      = Except.error ("Cube API HTTP " ++ toString 500) ∧
    (chatHandler [] "c1" "hi" "t0" "t1" false 500 [] none).store ≠ [] := by
  refine ⟨rfl, rfl, ?_⟩
  have e : (chatHandler [] "c1" "hi" "t0" "t1" false 500 [] none).store
      = [{ role := "user", content := "hi", timestamp := "t0" }] := rfl
  rw [e]
  simp

/-- C8 (amended): on a non-success upstream status or missing body (with
non-empty request content) the turn fails with a single propagated
error, no downstream envelope is written, and no assistant message is
persisted — but the user message of the turn is persisted before the
upstream call and remains in the store. -/
theorem upstream_failure_amended (store : List MessagePayload)
    (convoId content tsUser tsAssistant : String) (status : Nat)
    (lines : List CubeDelta) (trailing : Option CubeDelta) (h : content ≠ "") :
    chatHandler store convoId content tsUser tsAssistant false status lines trailing
      = { writes := [],
          store := store ++ [{ role := "user", content := content, timestamp := tsUser }],
          result := Except.error ("Cube API HTTP " ++ toString status) } := by
  simp [chatHandler, h, sendToCubeModel]

/-- C8 witness: concrete instance of the amended upstream-failure
behaviour. -/
theorem upstream_failure_amended_witness :
    chatHandler [] "c1" "hi" "t0" "t1" false 500 [] none
      = { writes := [],
          store := [{ role := "user", content := "hi", timestamp := "t0" }],
          result := Except.error ("Cube API HTTP " ++ toString 500) } :=
  upstream_failure_amended [] "c1" "hi" "t0" "t1" 500 [] none (by decide)

mutual

/-- `jsBeq` is reflexive: a value is structurally equal to itself. -/
theorem jsBeq_refl : (v : JsVal) → jsBeq v v = true
  | JsVal.null => rfl
  | JsVal.bool b => by simp [jsBeq]
  | JsVal.num n => by simp [jsBeq]
  | JsVal.str s => by simp [jsBeq]
  | JsVal.arr l => by simp [jsBeq, jsListBeq_refl l]
  | JsVal.obj l => by simp [jsBeq, jsFieldsBeq_refl l]

/-- `jsListBeq` is reflexive. -/
theorem jsListBeq_refl : (l : List JsVal) → jsListBeq l l = true
  | [] => rfl
  | a :: t => by simp [jsListBeq, jsBeq_refl a, jsListBeq_refl t]

/-- `jsFieldsBeq` is reflexive. -/
theorem jsFieldsBeq_refl : (l : List (String × JsVal)) → jsFieldsBeq l l = true
  | [] => rfl
  | (k, v) :: t => by simp [jsFieldsBeq, jsBeq_refl v, jsFieldsBeq_refl t]

end

/-- The event-handler body always appends the raw envelope to the
recorded event list. -/
theorem handleEventCore_events (st : ChatMsgState) (raw : JsVal) :
    (handleEventCore st raw).metadata.events = st.metadata.events ++ [raw] := rfl

/-- C7: client reducer de-duplication: delivering the same (truthy)
`event` raw envelope twice consecutively is a no-op the second time:
the segment list and all auxiliary state after the duplicate delivery
equal the state after the first delivery, so the pair produces the
segments of a single delivery. -/
theorem reducer_event_dedup (st : ChatMsgState) (raw : JsVal) (h : truthy raw = true) :
    handleEvent (handleEvent st raw) raw = handleEvent st raw := by
  have hcond : (truthy ((handleEvent st raw).metadata.events.getLastD JsVal.null)
      && jsBeq ((handleEvent st raw).metadata.events.getLastD JsVal.null) raw) = true := by
    simp only [handleEvent]
    split
    next hc => exact hc
    next hc =>
      rw [handleEventCore_events]
      simp [h, jsBeq_refl raw]
  have unf : handleEvent (handleEvent st raw) raw
      = if (truthy ((handleEvent st raw).metadata.events.getLastD JsVal.null)
            && jsBeq ((handleEvent st raw).metadata.events.getLastD JsVal.null) raw) = true
        then handleEvent st raw
        else handleEventCore (handleEvent st raw) raw := rfl
  rw [unf, if_pos hcond]

/-- C7 witness: delivering a concrete thinking event twice produces the
state of a single delivery. -/
theorem reducer_event_dedup_witness :
    handleEvent (handleEvent {} (JsVal.obj [("thinking", JsVal.str "abc")]))
        (JsVal.obj [("thinking", JsVal.str "abc")])
      = handleEvent {} (JsVal.obj [("thinking", JsVal.str "abc")]) :=
  reducer_event_dedup {} (JsVal.obj [("thinking", JsVal.str "abc")]) rfl

/-! ## Lemmas about the line framer -/

/-- A split always yields at least one piece. -/
theorem splitNl_ne_nil (l : List Char) : splitNl l ≠ [] := by
  cases l with
  | nil => simp [splitNl]
  | cons c cs =>
    cases h : splitNl cs with
    | nil => simp [splitNl, h]
    | cons a t =>
      simp only [splitNl, h]
      split <;> simp

/-- A newline-free text splits into the single piece itself. -/
theorem splitNl_single (l : List Char) (h : '\n' ∉ l) : splitNl l = [l] := by
  induction l with
  | nil => rfl
  | cons c cs ih =>
    have hc : ¬ c = '\n' := fun e => h (by simp [e])
    have hcs : '\n' ∉ cs := fun m => h (List.mem_cons_of_mem _ m)
    simp [splitNl, ih hcs, hc]

/-- Every piece of a split is newline-free. -/
theorem splitNl_no_newline (l : List Char) : ∀ p ∈ splitNl l, '\n' ∉ p := by
  induction l with
  | nil =>
    intro p hp
    simp [splitNl] at hp
    simp [hp]
  | cons c cs ih =>
    intro p hp
    cases h : splitNl cs with
    | nil => exact absurd h (splitNl_ne_nil cs)
    | cons a t =>
      simp only [splitNl, h] at hp
      by_cases hc : c = '\n'
      · rw [if_pos hc] at hp
        rcases List.mem_cons.mp hp with h1 | h1
        · simp [h1]
        · exact ih p (by rw [h]; exact h1)
      · rw [if_neg hc] at hp
        rcases List.mem_cons.mp hp with h1 | h1
        · subst h1
          intro hm
          rcases List.mem_cons.mp hm with h2 | h2
          · exact hc h2.symm
          · exact ih a (by rw [h]; exact List.mem_cons_self a t) h2
        · exact ih p (by rw [h]; exact List.mem_cons_of_mem a h1)

/-- Merge two split results across a chunk boundary: the last piece of
the first split is glued to the first piece of the second. -/
def joinParts : List (List Char) → List (List Char) → List (List Char)
  | [x], hb :: tb => (x ++ hb) :: tb
  | x :: xs, r => x :: joinParts xs r
  | [], r => r

/-- Closed form of `joinParts` on a non-empty first argument. -/
theorem joinParts_eq (A : List (List Char)) (hb : List Char) (tb : List (List Char))
    (hA : A ≠ []) :
    joinParts A (hb :: tb) = A.dropLast ++ (A.getLastD [] ++ hb) :: tb := by
  induction A with
  | nil => exact absurd rfl hA
  | cons x xs ih =>
    cases xs with
    | nil => simp [joinParts]
    | cons y ys =>
      have hstep : joinParts (x :: y :: ys) (hb :: tb) = x :: joinParts (y :: ys) (hb :: tb) := rfl
      rw [hstep, ih (by simp)]
      simp [List.getLastD_cons]

/-- Splitting distributes over append through `joinParts`. -/
theorem splitNl_append (a b : List Char) :
    splitNl (a ++ b) = joinParts (splitNl a) (splitNl b) := by
  induction a with
  | nil =>
    cases hb : splitNl b with
    | nil => exact absurd hb (splitNl_ne_nil b)
    | cons b1 bt => simp [splitNl, joinParts, hb]
  | cons c cs ih =>
    cases h : splitNl cs with
    | nil => exact absurd h (splitNl_ne_nil cs)
    | cons h1 t1 =>
      cases hb : splitNl b with
      | nil => exact absurd hb (splitNl_ne_nil b)
      | cons b1 bt =>
        have lhs : splitNl (c :: cs ++ b)
            = match splitNl (cs ++ b) with
              | [] => [[]]
              | h :: t => if c = '\n' then [] :: h :: t else (c :: h) :: t := rfl
        rw [lhs, ih, h, hb]
        cases t1 with
        | nil =>
          by_cases hc : c = '\n' <;>
            simp [splitNl, h, hc, joinParts]
        | cons t1h t1t =>
          by_cases hc : c = '\n' <;>
            simp [splitNl, h, hc, joinParts]

/-- The framer fold computed in closed form: starting from output `out`
and a newline-free pending buffer `buf`, folding the remaining chunks
yields exactly the non-blank completed lines of `buf ++ concatenation`,
with the final incomplete piece as the new buffer. -/
theorem frame_foldl_inv (cs : List (List Char)) :
    ∀ (out : List (List Char)) (buf : List Char), '\n' ∉ buf →
    cs.foldl frameStep (out, buf)
      = (out ++ (splitNl (buf ++ cs.flatten)).dropLast.filter (fun l => !(isBlank l)),
         (splitNl (buf ++ cs.flatten)).getLastD []) := by
  induction cs with
  | nil =>
    intro out buf hbuf
    rw [List.foldl_nil, List.flatten_nil, List.append_nil, splitNl_single buf hbuf]
    simp
  | cons ch ct ih =>
    intro out buf hbuf
    rw [List.foldl_cons]
    have hstep : frameStep (out, buf) ch
        = (out ++ (splitNl (buf ++ ch)).dropLast.filter (fun l => !(isBlank l)),
           (splitNl (buf ++ ch)).getLastD []) := rfl
    rw [hstep]
    have hAne : splitNl (buf ++ ch) ≠ [] := splitNl_ne_nil _
    have hnb : '\n' ∉ (splitNl (buf ++ ch)).getLastD [] := by
      apply splitNl_no_newline (buf ++ ch)
      cases hA : splitNl (buf ++ ch) with
      | nil => exact absurd hA hAne
      | cons a t =>
        rw [List.getLastD_cons]
        exact List.getLastD_mem_cons t a
    rw [ih _ _ hnb]
    cases hB : splitNl (List.flatten ct) with
    | nil => exact absurd hB (splitNl_ne_nil _)
    | cons b1 bt =>
      have hS : splitNl (buf ++ List.flatten (ch :: ct))
          = (splitNl (buf ++ ch)).dropLast
            ++ ((splitNl (buf ++ ch)).getLastD [] ++ b1) :: bt := by
        rw [List.flatten_cons, ← List.append_assoc, splitNl_append, hB,
          joinParts_eq _ _ _ hAne]
      have hS2 : splitNl ((splitNl (buf ++ ch)).getLastD [] ++ List.flatten ct)
          = ((splitNl (buf ++ ch)).getLastD [] ++ b1) :: bt := by
        rw [splitNl_append, hB, splitNl_single _ hnb]
        rfl
      rw [hS, hS2]
      simp only [Prod.mk.injEq]
      constructor
      · rw [List.dropLast_append_cons, List.filter_append, List.append_assoc]
      · simp only [List.getLastD_eq_getLast?]
        rw [List.getLast?_append_of_ne_nil _ (List.cons_ne_nil _ _)]

/-- C5: line-framer chunk-boundary invariance: for every chunk sequence
the framer yields exactly the non-blank pieces of splitting the full
concatenated text on newlines, in order — every non-blank logical line
exactly once in original order, blank lines discarded, and a non-blank
trailing fragment flushed as one final line — independently of where the
chunk boundaries fall. -/
theorem framer_chunk_invariance (chunks : List (List Char)) :
    frame chunks = (splitNl chunks.flatten).filter (fun l => !(isBlank l)) := by
  have hne : splitNl (List.flatten chunks) ≠ [] := splitNl_ne_nil _
  simp only [frame]
  rw [frame_foldl_inv chunks [] [] (by simp)]
  simp only [List.nil_append]
  generalize hS : splitNl (List.flatten chunks) = S at *
  induction S using List.reverseRecOn with
  | nil => exact absurd rfl hne
  | append_singleton xs x ihx =>
    rw [List.dropLast_concat, List.getLastD_concat, List.filter_append]
    by_cases hb : isBlank x = true
    · rw [if_pos hb]
      simp [List.filter, hb]
    · rw [if_neg hb]
      simp [List.filter, Bool.not_eq_true, hb]
